import Mathlib

/-!
Verification of `scripts/analyze_dynasty_format.py` (Old World save-file
dynasty-format analyzer).

The script is embedded shallowly:

* XML documents are trees of elements (`XmlElem`); `ElementTree` parsing of
  the raw text is an oracle (`World.parseXml`), since no claim depends on the
  concrete XML grammar.
* Zip archives are `ZipFile` values (named entries with byte contents);
  opening an archive on disk is an oracle (`World.zipOf`, `none` models the
  exception branch).
* Bytes decode to text with an executable UTF-8 decoder (`utf8Decode`),
  modelling Python's strict `bytes.decode('utf-8')`.
* Filesystem facts (existence, file/dir, mtime, recursive glob) are oracle
  fields of `World`.
* Everything printed is modelled as a `Msg`, one constructor per `print`
  statement of the script, carrying the dynamic data of that line.

Python's stable ascending `sorted(..., key=mtime)` is modelled with the
stable, structurally recursive `List.insertionSort`.
-/

/-- An XML element: tag, attributes and children in document order. -/
inductive XmlElem where
  | mk (tag : String) (attrs : List (String × String)) (children : List XmlElem)

def XmlElem.tag : XmlElem → String
  | .mk t _ _ => t

def XmlElem.attrs : XmlElem → List (String × String)
  | .mk _ a _ => a

def XmlElem.children : XmlElem → List XmlElem
  | .mk _ _ cs => cs

/-- Attribute lookup, `elem.get(key)`: the value of the attribute named
`key`, or `none` when absent (XML forbids duplicate attribute names, so
first-match lookup is exact). -/
def XmlElem.get (e : XmlElem) (key : String) : Option String :=
  (e.attrs.find? (fun kv => kv.1 == key)).map Prod.snd

mutual
/-- Proper descendants of an element, in document (preorder) order.
`ElementTree`'s `root.findall('.//Player')` searches descendants only:
the root element itself is never matched by `.//`. -/
def descendants : XmlElem → List XmlElem
  | .mk _ _ cs => descendantsOfList cs

def descendantsOfList : List XmlElem → List XmlElem
  | [] => []
  | c :: cs => c :: descendants c ++ descendantsOfList cs
end

/-- The element list traversed by the `root.findall('.//Player')` loop. -/
def findallPlayers (root : XmlElem) : List XmlElem :=
  (descendants root).filter (fun e => e.tag == "Player")

/-- `DIADOCHI_NATIONS` (the Python set; only membership is used). -/
def DIADOCHI_NATIONS : List String :=
  ["NATION_SELEUCUS", "NATION_ANTIGONUS", "NATION_PTOLEMY"]

/-- `EXPECTED_MAPPINGS`: legacy nation identifier to the expected modern
(nation, dynasty) pair. -/
def EXPECTED_MAPPINGS : String → Option (String × String)
  | "NATION_SELEUCUS" => some ("NATION_GREECE", "DYNASTY_SELEUCID")
  | "NATION_ANTIGONUS" => some ("NATION_GREECE", "DYNASTY_ANTIGONID")
  | "NATION_PTOLEMY" => some ("NATION_GREECE", "DYNASTY_PTOLEMY")
  | _ => none

/-- The inline tuple `('DYNASTY_SELEUCID', 'DYNASTY_ANTIGONID', 'DYNASTY_PTOLEMY')`
used by the modern-form checks (lines 105 and 174). -/
def MODERN_DYNASTIES : List String :=
  ["DYNASTY_SELEUCID", "DYNASTY_ANTIGONID", "DYNASTY_PTOLEMY"]

/-- The per-player dict built at lines 88-93. -/
structure PlayerRecord where
  id : Option String
  name : Option String
  nation : Option String
  dynasty : Option String
deriving DecidableEq, Repr

/-- `SaveFileAnalysis` (class at lines 27-42). -/
structure SaveFileAnalysis where
  filename : String
  file_mtime : Option Nat
  game_id : Option String := none
  game_version : Option String := none
  save_date : Option String := none
  players : List PlayerRecord := []
  has_diadochi : Bool := false
  diadochi_as_nations : Bool := false
  diadochi_as_dynasties : Bool := false
deriving DecidableEq, Repr

/-- One constructor per `print` statement of the script, carrying the
dynamic data of the line. -/
inductive Msg where
  | pathDoesNotExist (p : String)
  | errorReading (nm : String)
  | noXmlWarning (nm : String)
  | parseError (nm : String)
  | analyzing (nm : String)
  | analyzeOk (hasDiadochi : Bool) (playerCount : Nat)
  | analyzeFailed
  | noDirsUsage
  | searchingIn (paths : List String)
  | foundCount (n : Nat)
  | noSaveFiles
  | summaryHeader
  | totalAnalyzed (n : Nat)
  | withDiadochiCount (n : Nat)
  | asNationsCount (n : Nat)
  | asDynastiesCount (n : Nat)
  | bothFormatsWarning
  | allLegacyConfirm
  | allModernConfirm
  | breakdownHeader
  | fileHeader (nm : String) (mtime : Option Nat)
  | versionLine (v : String)
  | saveDateLine (d : String)
  | playerLine (nm : Option String)
  | nationDynastyLine (nation : Option String) (dynastyDisplay : String)
  | formatLegacy (expected : Option (String × String))
  | formatModern
deriving DecidableEq, Repr

/-- A zip archive: named entries with byte contents, in listing order. -/
structure ZipFile where
  entries : List (String × List Nat)
deriving DecidableEq, Repr

/-- `zf.namelist()`. -/
def ZipFile.namelist (z : ZipFile) : List String := z.entries.map Prod.fst

/-- `zf.read(nm)`: `zipfile` resolves a name through `NameToInfo`, where a
later entry with the same name overwrites an earlier one, hence the
last-occurrence lookup. -/
def ZipFile.zread (z : ZipFile) (nm : String) : Option (List Nat) :=
  (z.entries.reverse.find? (fun en => en.1 == nm)).map Prod.snd

/-- Continuation byte test, `0x80 ≤ b ≤ 0xBF`. -/
def contByte (b : Nat) : Bool := 0x80 ≤ b && b ≤ 0xBF

/-- Strict UTF-8 decoding of a byte list into characters, rejecting overlong
forms, surrogates and out-of-range code points, like Python's
`bytes.decode('utf-8')`. -/
def utf8DecodeList : List Nat → Option (List Char)
  | [] => some []
  | b :: rest =>
    if b ≤ 0x7F then
      (utf8DecodeList rest).map (fun cs => Char.ofNat b :: cs)
    else if 0xC2 ≤ b && b ≤ 0xDF then
      match rest with
      | c1 :: rest1 =>
        if contByte c1 then
          (utf8DecodeList rest1).map (fun cs =>
            Char.ofNat ((b - 0xC0) * 64 + (c1 - 0x80)) :: cs)
        else none
      | _ => none
    else if 0xE0 ≤ b && b ≤ 0xEF then
      match rest with
      | c1 :: c2 :: rest2 =>
        let c1ok : Bool :=
          if b = 0xE0 then 0xA0 ≤ c1 && c1 ≤ 0xBF
          else if b = 0xED then 0x80 ≤ c1 && c1 ≤ 0x9F
          else contByte c1
        if c1ok && contByte c2 then
          (utf8DecodeList rest2).map (fun cs =>
            Char.ofNat ((b - 0xE0) * 4096 + (c1 - 0x80) * 64 + (c2 - 0x80)) :: cs)
        else none
      | _ => none
    else if 0xF0 ≤ b && b ≤ 0xF4 then
      match rest with
      | c1 :: c2 :: c3 :: rest3 =>
        let c1ok : Bool :=
          if b = 0xF0 then 0x90 ≤ c1 && c1 ≤ 0xBF
          else if b = 0xF4 then 0x80 ≤ c1 && c1 ≤ 0x8F
          else contByte c1
        if c1ok && contByte c2 && contByte c3 then
          (utf8DecodeList rest3).map (fun cs =>
            Char.ofNat ((b - 0xF0) * 262144 + (c1 - 0x80) * 4096 +
              (c2 - 0x80) * 64 + (c3 - 0x80)) :: cs)
        else none
      | _ => none
    else none

/-- `bytes.decode('utf-8')`: `none` models the raised `UnicodeDecodeError`. -/
def utf8Decode (bs : List Nat) : Option String :=
  (utf8DecodeList bs).map (fun cs => String.mk cs)

/-- Bytes of an ASCII string (used to build concrete archive contents). -/
def asciiBytes (s : String) : List Nat := s.data.map Char.toNat

/-- Suffix test on strings by character list (structurally recursive stand-in
for `str.endswith`). -/
def strEndsWith (s suffix : String) : Bool := suffix.data.isSuffixOf s.data

/-- Split a character list at every occurrence of `c`. -/
def splitOnChar (c : Char) : List Char → List (List Char)
  | [] => [[]]
  | x :: xs =>
    let r := splitOnChar c xs
    if x = c then [] :: r
    else
      match r with
      | [] => [[x]]
      | y :: ys => (x :: y) :: ys

/-- `Path.name`: the final path component. -/
def pathName (p : String) : String :=
  String.mk ((splitOnChar (Char.ofNat 47) p.data).getLastD p.data)

/-- `Path.suffix`: the extension of the final component, following
`pathlib` (empty when the name has no dot, starts with its only dot, or
ends with the dot). -/
def pathSuffix (p : String) : String :=
  let nm := (pathName p).data
  match splitOnChar (Char.ofNat 46) nm with
  | [] => ""
  | [_] => ""
  | s0 :: rest =>
    let sk := rest.getLastD []
    if sk.isEmpty then ""
    else if s0.isEmpty && rest.length == 1 then ""
    else String.mk (Char.ofNat 46 :: sk)

/--
The process environment of one run: command-line arguments after the
program name (`sys.argv[1:]`) plus oracles for every effectful operation
the script performs.

* `pexists`, `is_file`, `is_dir`, `mtime` model `Path.exists`, `Path.is_file`,
  `Path.is_dir` and `Path.stat().st_mtime`;
* `rglobZip p` models `Path(p).rglob('*.zip')`, in enumeration order;
* `zipOf p` models `zipfile.ZipFile(p)` (`none` = raised exception);
* `parseXml s` models `ET.fromstring(s)` (`none` = `ParseError`).
-/
structure World where
  argv : List String
  pexists : String → Bool
  is_file : String → Bool
  is_dir : String → Bool
  mtime : String → Nat
  rglobZip : String → List String
  zipOf : String → Option ZipFile
  parseXml : String → Option XmlElem

/-- `extract_xml_from_save` (lines 44-64), applied to the result of opening
the archive; `displayName` is `save_path.name`. -/
def extract_xml_from_save (zo : Option ZipFile) (displayName : String) :
    Option String × List Msg :=
  match zo with
  | none => (none, [Msg.errorReading displayName])
  | some z =>
    if z.namelist.contains "game.xml" then
      match z.zread "game.xml" with
      | some bs =>
        match utf8Decode bs with
        | some s => (some s, [])
        | none => (none, [Msg.errorReading displayName])
      | none => (none, [Msg.errorReading displayName])
    else
      match z.namelist.filter (fun f => strEndsWith f ".xml") with
      | [] => (none, [Msg.noXmlWarning displayName])
      | f :: _ =>
        match z.zread f with
        | some bs =>
          match utf8Decode bs with
          | some s => (some s, [])
          | none => (none, [Msg.errorReading displayName])
        | none => (none, [Msg.errorReading displayName])

/-- The condition `nation in DIADOCHI_NATIONS` (line 100); a missing
attribute (`None`) is in no set. -/
def nationIsDiadochi (nation : Option String) : Bool :=
  match nation with
  | some n => DIADOCHI_NATIONS.contains n
  | none => false

/-- The condition `nation == 'NATION_GREECE' and dynasty in (...)` (line 105). -/
def isGreeceDiadochiDynasty (nation dynasty : Option String) : Bool :=
  nation == some "NATION_GREECE" &&
    (match dynasty with
     | some d => MODERN_DYNASTIES.contains d
     | none => false)

/-- The player dict built from one `Player` element (lines 88-93). -/
def playerRecordOf (e : XmlElem) : PlayerRecord :=
  { id := e.get "ID"
    name := e.get "Name"
    nation := e.get "Nation"
    dynasty := e.get "Dynasty" }

/-- One iteration of the `for player_elem in root.findall('.//Player')`
loop (lines 87-107): append the record, then update the three flags. -/
def stepPlayer (a : SaveFileAnalysis) (e : XmlElem) : SaveFileAnalysis :=
  let pd := playerRecordOf e
  let a1 := { a with players := a.players ++ [pd] }
  let a2 :=
    if nationIsDiadochi pd.nation then
      { a1 with has_diadochi := true, diadochi_as_nations := true }
    else a1
  if isGreeceDiadochiDynasty pd.nation pd.dynasty then
    { a2 with has_diadochi := true, diadochi_as_dynasties := true }
  else a2

/-- `SaveFileAnalysis.__init__` (lines 29-39). -/
def initAnalysis (w : World) (p : String) : SaveFileAnalysis :=
  { filename := pathName p
    file_mtime := if w.pexists p then some (w.mtime p) else none }

/-- The successful branch of `analyze_save_file`: metadata from the root
attributes, then the player loop. -/
def mkAnalysis (w : World) (p : String) (root : XmlElem) : SaveFileAnalysis :=
  let a0 := { initAnalysis w p with
    game_id := root.get "GameId"
    game_version := root.get "Version"
    save_date := root.get "SaveDate" }
  (findallPlayers root).foldl stepPlayer a0

/-- `analyze_save_file` (lines 66-109). The `if not xml_content` guard
treats both extraction failure and an extracted empty string as failure. -/
def analyze_save_file (w : World) (p : String) :
    Option SaveFileAnalysis × List Msg :=
  match extract_xml_from_save (w.zipOf p) (pathName p) with
  | (none, ms) => (none, ms)
  | (some s, ms) =>
    if s.isEmpty then (none, ms)
    else
      match w.parseXml s with
      | none => (none, ms ++ [Msg.parseError (pathName p)])
      | some root => (some (mkAnalysis w p root), ms)

/-- One iteration of the `for search_path in search_paths` loop of
`find_save_files` (lines 115-124). -/
def findStep (w : World) (acc : List String × List Msg) (sp : String) :
    List String × List Msg :=
  if !w.pexists sp then (acc.1, acc.2 ++ [Msg.pathDoesNotExist sp])
  else if w.is_file sp && pathSuffix sp == ".zip" then (acc.1 ++ [sp], acc.2)
  else if w.is_dir sp then (acc.1 ++ w.rglobZip sp, acc.2)
  else acc

/-- `find_save_files` (lines 111-126): collect, then sort ascending by
modification time (`sorted` is stable; so is `insertionSort`). -/
def find_save_files (w : World) (search_paths : List String) :
    List String × List Msg :=
  let collected := search_paths.foldl (findStep w) ([], [])
  (List.insertionSort (fun a b => w.mtime a ≤ w.mtime b) collected.1,
    collected.2)

/-- `player['dynasty'] or 'None'` (line 179): `None` and the empty string
both display as the literal `"None"`. -/
def dynastyDisplay : Option String → String
  | none => "None"
  | some d => if d.isEmpty then "None" else d

/-- The filter selecting Diadochi players in the breakdown (lines 170-175). -/
def isDiadochiPlayer (pd : PlayerRecord) : Bool :=
  nationIsDiadochi pd.nation || isGreeceDiadochiDynasty pd.nation pd.dynasty

/-- The three lines printed per Diadochi player (lines 177-188). -/
def playerMsgs (pd : PlayerRecord) : List Msg :=
  [Msg.playerLine pd.name,
   Msg.nationDynastyLine pd.nation (dynastyDisplay pd.dynasty)] ++
  (if nationIsDiadochi pd.nation then
      [Msg.formatLegacy (pd.nation.bind EXPECTED_MAPPINGS)]
    else [Msg.formatModern])

/-- The lines printed per archive in the detailed breakdown (lines 158-188);
`if analysis.game_version:` is Python truthiness, so the empty string is
also omitted. -/
def archiveMsgs (a : SaveFileAnalysis) : List Msg :=
  Msg.fileHeader a.filename a.file_mtime ::
  (match a.game_version with
   | some v => if v.isEmpty then [] else [Msg.versionLine v]
   | none => []) ++
  (match a.save_date with
   | some d => if d.isEmpty then [] else [Msg.saveDateLine d]
   | none => []) ++
  (a.players.filter isDiadochiPlayer).flatMap playerMsgs

/-- `print_analysis_summary` (lines 128-188) as its list of printed lines.
`if as_nations and as_dynasties:` tests list truthiness, i.e. non-emptiness. -/
def print_analysis_summary (analyses : List SaveFileAnalysis) : List Msg :=
  let with_diadochi := analyses.filter (fun a => a.has_diadochi)
  let as_nations := analyses.filter (fun a => a.diadochi_as_nations)
  let as_dynasties := analyses.filter (fun a => a.diadochi_as_dynasties)
  [Msg.summaryHeader, Msg.totalAnalyzed analyses.length,
   Msg.withDiadochiCount with_diadochi.length,
   Msg.asNationsCount as_nations.length,
   Msg.asDynastiesCount as_dynasties.length] ++
  (if !as_nations.isEmpty && !as_dynasties.isEmpty then [Msg.bothFormatsWarning]
   else if !as_nations.isEmpty then [Msg.allLegacyConfirm]
   else if !as_dynasties.isEmpty then [Msg.allModernConfirm]
   else []) ++
  (if !with_diadochi.isEmpty then
      Msg.breakdownHeader :: with_diadochi.flatMap archiveMsgs
    else [])

/-- One iteration of the per-file analysis loop of `main` (lines 230-238):
progress line, inline messages of the analysis, then the status mark. -/
def processStep (w : World) (acc : List SaveFileAnalysis × List Msg) (f : String) :
    List SaveFileAnalysis × List Msg :=
  match analyze_save_file w f with
  | (some a, ms) =>
    (acc.1 ++ [a],
      acc.2 ++ Msg.analyzing (pathName f) ::
        ms ++ [Msg.analyzeOk a.has_diadochi a.players.length])
  | (none, ms) =>
    (acc.1, acc.2 ++ Msg.analyzing (pathName f) :: ms ++ [Msg.analyzeFailed])

/-- The per-file analysis loop of `main` (lines 229-241). -/
def processSaveFiles (w : World) (files : List String) :
    List SaveFileAnalysis × List Msg :=
  files.foldl (processStep w) ([], [])

/-- The lines one file contributes to the analysis loop's output. -/
def perFileMsgs (w : World) (f : String) : List Msg :=
  match analyze_save_file w f with
  | (some a, ms) =>
    Msg.analyzing (pathName f) :: ms ++ [Msg.analyzeOk a.has_diadochi a.players.length]
  | (none, ms) => Msg.analyzing (pathName f) :: ms ++ [Msg.analyzeFailed]

/-- The four default search directories (lines 196-201), with `Path.home()`
abbreviated to `~`. -/
def default_paths : List String :=
  ["~/Documents/My Games/OldWorld/Save",
   "~/Documents/My Games/OldWorld/Saves",
   "~/Library/Application Support/OldWorld/Save",
   "~/Library/Application Support/OldWorld/Saves"]

/-- Lines 203-207: explicit arguments are taken as-is; only the defaults
are filtered for existence. -/
def resolvedSearchPaths (w : World) : List String :=
  if !w.argv.isEmpty then w.argv else default_paths.filter w.pexists

namespace Script

/-- `main` (lines 190-243): exit code plus every printed line. -/
def main (w : World) : Int × List Msg :=
  let search_paths := resolvedSearchPaths w
  if search_paths.isEmpty then (1, [Msg.noDirsUsage])
  else
    match find_save_files w search_paths with
    | (save_files, findMs) =>
      if save_files.isEmpty then
        (1, Msg.searchingIn search_paths :: findMs ++ [Msg.noSaveFiles])
      else
        match processSaveFiles w save_files with
        | (analyses, procMs) =>
          (0, Msg.searchingIn search_paths :: findMs ++
            Msg.foundCount save_files.length :: procMs ++
            print_analysis_summary analyses)

end Script

/-! ### Concrete runs used by witnesses and counterexamples -/

/-- Document of `a.zip`: a root with one legacy-form `Player` (no `Dynasty`
attribute). -/
def doc1 : XmlElem :=
  .mk "Root" [("GameId", "g1")]
    [.mk "Player" [("ID", "0"), ("Name", "Alexandros"), ("Nation", "NATION_SELEUCUS")] []]

/-- Document of `b.zip`: one `Player` of an unrelated nation. -/
def doc2 : XmlElem := .mk "Root" [] [.mk "Player" [("Nation", "NATION_ROME")] []]

def zipA : ZipFile := ⟨[("game.xml", asciiBytes "docA")]⟩

def zipB : ZipFile := ⟨[("save.xml", asciiBytes "docB")]⟩

def zipNoXml : ZipFile := ⟨[("data.bin", [1, 2, 3])]⟩

def zipEmptyDoc : ZipFile := ⟨[("game.xml", [])]⟩

/-- A run on a directory `/saves` holding three archives: `a.zip` (legacy
match), `b.zip` (no match), `c.zip` (unreadable); `rglob` enumerates them
out of mtime order. -/
def wEx : World where
  argv := ["/saves"]
  pexists := fun p =>
    p == "/saves" || p == "/saves/a.zip" || p == "/saves/b.zip" || p == "/saves/c.zip"
  is_file := fun p => p == "/saves/a.zip" || p == "/saves/b.zip" || p == "/saves/c.zip"
  is_dir := fun p => p == "/saves"
  mtime := fun p => if p == "/saves/a.zip" then 10 else if p == "/saves/b.zip" then 20 else 30
  rglobZip := fun p =>
    if p == "/saves" then ["/saves/c.zip", "/saves/a.zip", "/saves/b.zip"] else []
  zipOf := fun p =>
    if p == "/saves/a.zip" then some zipA
    else if p == "/saves/b.zip" then some zipB
    else none
  parseXml := fun s => if s == "docA" then some doc1 else if s == "docB" then some doc2 else none

def pRecA : PlayerRecord := ⟨some "0", some "Alexandros", some "NATION_SELEUCUS", none⟩

/-- The analysis `analyze_save_file` produces for `/saves/a.zip` in `wEx`. -/
def analysisA : SaveFileAnalysis :=
  { filename := "a.zip", file_mtime := some 10, game_id := some "g1",
    players := [pRecA], has_diadochi := true, diadochi_as_nations := true }

/-- A document whose root element is itself named `Player`. -/
def docP : XmlElem :=
  .mk "Player" [("ID", "7"), ("Name", "Seleukos"), ("Nation", "NATION_SELEUCUS")] []

def zipP : ZipFile := ⟨[("game.xml", asciiBytes "docP")]⟩

/-- A run on the single archive `/x/p.zip` whose document root is a
`Player` element. -/
def wRootPlayer : World where
  argv := ["/x/p.zip"]
  pexists := fun p => p == "/x/p.zip"
  is_file := fun p => p == "/x/p.zip"
  is_dir := fun _ => false
  mtime := fun _ => 5
  rglobZip := fun _ => []
  zipOf := fun p => if p == "/x/p.zip" then some zipP else none
  parseXml := fun s => if s == "docP" then some docP else none

/-- A run whose single explicit argument `/nope.zip` does not exist on the
filesystem, although opening it would succeed if it were ever attempted. -/
def wMissing : World where
  argv := ["/nope.zip"]
  pexists := fun _ => false
  is_file := fun p => p == "/nope.zip"
  is_dir := fun _ => false
  mtime := fun _ => 0
  rglobZip := fun _ => []
  zipOf := fun _ => some zipP
  parseXml := fun _ => none

/-- A run on a single archive whose `game.xml` entry is zero bytes long:
extraction and UTF-8 decoding succeed, producing the empty string. -/
def wEmptyDoc : World where
  argv := ["/e.zip"]
  pexists := fun p => p == "/e.zip"
  is_file := fun p => p == "/e.zip"
  is_dir := fun _ => false
  mtime := fun _ => 1
  rglobZip := fun _ => []
  zipOf := fun p => if p == "/e.zip" then some zipEmptyDoc else none
  parseXml := fun _ => none

/-- Selector for progress lines, used to state report ordering. -/
def msgAnalyzingName : Msg → Option String
  | .analyzing nm => some nm
  | _ => none

def msgIsAnalyzeOk : Msg → Bool
  | .analyzeOk _ _ => true
  | _ => false

def msgIsAnalyzeFailed : Msg → Bool
  | .analyzeFailed => true
  | _ => false

/-- An archive-open failure line (`Error reading ...`). -/
def msgIsOpenFailure : Msg → Bool
  | .errorReading _ => true
  | _ => false

/-- The three mutually exclusive aggregate-form lines of the summary. -/
def msgIsFormBranch : Msg → Bool
  | .bothFormatsWarning => true
  | .allLegacyConfirm => true
  | .allModernConfirm => true
  | _ => false

/-! ### Lemmas about the player loop -/

theorem stepPlayer_players (a : SaveFileAnalysis) (e : XmlElem) :
    (stepPlayer a e).players = a.players ++ [playerRecordOf e] := by
  unfold stepPlayer
  dsimp only
  split_ifs <;> rfl

theorem stepPlayer_nations (a : SaveFileAnalysis) (e : XmlElem) :
    (stepPlayer a e).diadochi_as_nations
      = (a.diadochi_as_nations || nationIsDiadochi (playerRecordOf e).nation) := by
  unfold stepPlayer
  dsimp only
  cases hL : nationIsDiadochi (playerRecordOf e).nation <;>
    cases hM : isGreeceDiadochiDynasty (playerRecordOf e).nation (playerRecordOf e).dynasty <;>
      simp [hL, hM]

theorem stepPlayer_dynasties (a : SaveFileAnalysis) (e : XmlElem) :
    (stepPlayer a e).diadochi_as_dynasties
      = (a.diadochi_as_dynasties
          || isGreeceDiadochiDynasty (playerRecordOf e).nation (playerRecordOf e).dynasty) := by
  unfold stepPlayer
  dsimp only
  cases hL : nationIsDiadochi (playerRecordOf e).nation <;>
    cases hM : isGreeceDiadochiDynasty (playerRecordOf e).nation (playerRecordOf e).dynasty <;>
      simp [hL, hM]

theorem stepPlayer_has (a : SaveFileAnalysis) (e : XmlElem) :
    (stepPlayer a e).has_diadochi
      = (a.has_diadochi || nationIsDiadochi (playerRecordOf e).nation
          || isGreeceDiadochiDynasty (playerRecordOf e).nation (playerRecordOf e).dynasty) := by
  unfold stepPlayer
  dsimp only
  cases hL : nationIsDiadochi (playerRecordOf e).nation <;>
    cases hM : isGreeceDiadochiDynasty (playerRecordOf e).nation (playerRecordOf e).dynasty <;>
      simp [hL, hM]

theorem foldl_stepPlayer_players (es : List XmlElem) (a : SaveFileAnalysis) :
    (es.foldl stepPlayer a).players = a.players ++ es.map playerRecordOf := by
  induction es generalizing a with
  | nil => simp
  | cons e es ih => simp [List.foldl_cons, ih, stepPlayer_players, List.append_assoc]

theorem foldl_stepPlayer_nations (es : List XmlElem) (a : SaveFileAnalysis) :
    (es.foldl stepPlayer a).diadochi_as_nations
      = (a.diadochi_as_nations
          || es.any (fun e => nationIsDiadochi (playerRecordOf e).nation)) := by
  induction es generalizing a with
  | nil => simp
  | cons e es ih => simp [List.foldl_cons, ih, stepPlayer_nations, Bool.or_assoc]

theorem foldl_stepPlayer_dynasties (es : List XmlElem) (a : SaveFileAnalysis) :
    (es.foldl stepPlayer a).diadochi_as_dynasties
      = (a.diadochi_as_dynasties
          || es.any (fun e =>
              isGreeceDiadochiDynasty (playerRecordOf e).nation (playerRecordOf e).dynasty)) := by
  induction es generalizing a with
  | nil => simp
  | cons e es ih => simp [List.foldl_cons, ih, stepPlayer_dynasties, Bool.or_assoc]

theorem foldl_stepPlayer_has (es : List XmlElem) (a : SaveFileAnalysis) :
    (es.foldl stepPlayer a).has_diadochi
      = (a.has_diadochi
          || es.any (fun e => nationIsDiadochi (playerRecordOf e).nation
              || isGreeceDiadochiDynasty (playerRecordOf e).nation (playerRecordOf e).dynasty)) := by
  induction es generalizing a with
  | nil => simp
  | cons e es ih => simp [List.foldl_cons, ih, stepPlayer_has, Bool.or_assoc]

theorem mkAnalysis_players (w : World) (p : String) (root : XmlElem) :
    (mkAnalysis w p root).players = (findallPlayers root).map playerRecordOf := by
  simp [mkAnalysis, foldl_stepPlayer_players, initAnalysis]

theorem mkAnalysis_nations (w : World) (p : String) (root : XmlElem) :
    (mkAnalysis w p root).diadochi_as_nations
      = (findallPlayers root).any (fun e => nationIsDiadochi (playerRecordOf e).nation) := by
  simp [mkAnalysis, foldl_stepPlayer_nations, initAnalysis]

theorem mkAnalysis_dynasties (w : World) (p : String) (root : XmlElem) :
    (mkAnalysis w p root).diadochi_as_dynasties
      = (findallPlayers root).any (fun e =>
          isGreeceDiadochiDynasty (playerRecordOf e).nation (playerRecordOf e).dynasty) := by
  simp [mkAnalysis, foldl_stepPlayer_dynasties, initAnalysis]

theorem mkAnalysis_has (w : World) (p : String) (root : XmlElem) :
    (mkAnalysis w p root).has_diadochi
      = (findallPlayers root).any (fun e => nationIsDiadochi (playerRecordOf e).nation
          || isGreeceDiadochiDynasty (playerRecordOf e).nation (playerRecordOf e).dynasty) := by
  simp [mkAnalysis, foldl_stepPlayer_has, initAnalysis]

theorem analyze_save_file_some {w : World} {p : String} {a : SaveFileAnalysis}
    (h : (analyze_save_file w p).1 = some a) : ∃ root, a = mkAnalysis w p root := by
  unfold analyze_save_file at h
  rcases hE : extract_xml_from_save (w.zipOf p) (pathName p) with ⟨xc, ms⟩
  rw [hE] at h
  cases xc with
  | none => simp at h
  | some s =>
    by_cases hs : s.isEmpty
    · simp [hs] at h
    · simp only [hs] at h
      cases hr : w.parseXml s with
      | none => rw [hr] at h; simp at h
      | some root =>
        rw [hr] at h
        simp at h
        exact ⟨root, h.symm⟩

theorem legacy_modern_disjoint (pd : PlayerRecord) :
    ¬(nationIsDiadochi pd.nation = true
        ∧ isGreeceDiadochiDynasty pd.nation pd.dynasty = true) := by
  rintro ⟨h1, h2⟩
  cases hn : pd.nation with
  | none => rw [hn] at h1; exact absurd h1 (by decide)
  | some n =>
    rw [hn] at h1 h2
    have hg : n = "NATION_GREECE" := by
      simp only [isGreeceDiadochiDynasty, Bool.and_eq_true, beq_iff_eq,
        Option.some.injEq] at h2
      exact h2.1
    subst hg
    exact absurd h1 (by decide)

theorem any_or_split {α : Type} (l : List α) (f g : α → Bool) :
    l.any (fun x => f x || g x) = (l.any f || l.any g) := by
  induction l with
  | nil => rfl
  | cons x xs ih =>
    simp only [List.any_cons, ih]
    cases f x <;> cases g x <;> simp

/-! ### Claim theorems -/

/-- Claim C1: for every `PlayerRecord` parsed from a document, a nation in
the legacy set forces `has_diadochi` and `diadochi_as_nations` true on the
owning analysis; `NATION_GREECE` with a Diadochi dynasty forces
`has_diadochi` and `diadochi_as_dynasties` true; and no single record can
satisfy both predicates, the two nation sets being disjoint. -/
theorem c1_record_classification (w : World) (p : String) (a : SaveFileAnalysis)
    (h : (analyze_save_file w p).1 = some a) :
    ∀ pd ∈ a.players,
      (nationIsDiadochi pd.nation = true →
        a.has_diadochi = true ∧ a.diadochi_as_nations = true) ∧
      (isGreeceDiadochiDynasty pd.nation pd.dynasty = true →
        a.has_diadochi = true ∧ a.diadochi_as_dynasties = true) ∧
      ¬(nationIsDiadochi pd.nation = true
          ∧ isGreeceDiadochiDynasty pd.nation pd.dynasty = true) := by
  obtain ⟨root, rfl⟩ := analyze_save_file_some h
  intro pd hpd
  rw [mkAnalysis_players] at hpd
  obtain ⟨e, he, rfl⟩ := List.mem_map.1 hpd
  refine ⟨fun hl => ⟨?_, ?_⟩, fun hm => ⟨?_, ?_⟩, legacy_modern_disjoint _⟩
  · rw [mkAnalysis_has]
    simp only [List.any_eq_true]
    exact ⟨e, he, by simp [hl]⟩
  · rw [mkAnalysis_nations]
    simp only [List.any_eq_true]
    exact ⟨e, he, hl⟩
  · rw [mkAnalysis_has]
    simp only [List.any_eq_true]
    exact ⟨e, he, by simp [hm]⟩
  · rw [mkAnalysis_dynasties]
    simp only [List.any_eq_true]
    exact ⟨e, he, hm⟩

theorem c1_witness :
    (analyze_save_file wEx "/saves/a.zip").1 = some analysisA ∧
    pRecA ∈ analysisA.players ∧
    nationIsDiadochi pRecA.nation = true ∧
    analysisA.has_diadochi = true ∧ analysisA.diadochi_as_nations = true := by
  have hA : (analyze_save_file wEx "/saves/a.zip").1 = some analysisA := by decide
  have h := c1_record_classification wEx "/saves/a.zip" analysisA hA pRecA (by decide)
  have hl : nationIsDiadochi pRecA.nation = true := by decide
  exact ⟨hA, by decide, hl, (h.1 hl).1, (h.1 hl).2⟩

/-- Claim C9: every successfully produced `SaveFileAnalysis` satisfies the
invariant `has_diadochi = (diadochi_as_nations || diadochi_as_dynasties)`. -/
theorem c9_has_diadochi_invariant (w : World) (p : String) (a : SaveFileAnalysis)
    (h : (analyze_save_file w p).1 = some a) :
    a.has_diadochi = (a.diadochi_as_nations || a.diadochi_as_dynasties) := by
  obtain ⟨root, rfl⟩ := analyze_save_file_some h
  rw [mkAnalysis_has, mkAnalysis_nations, mkAnalysis_dynasties, any_or_split]

theorem c9_witness :
    (analyze_save_file wEx "/saves/a.zip").1 = some analysisA ∧
    analysisA.has_diadochi = (analysisA.diadochi_as_nations || analysisA.diadochi_as_dynasties) :=
  ⟨by decide, c9_has_diadochi_invariant wEx "/saves/a.zip" analysisA (by decide)⟩

/-- Claim C10: when the selected embedded document extracts and decodes to
the empty string, `analyze_save_file` fails the archive (the `if not
xml_content` guard tests falsiness, and the empty string is falsy). -/
theorem c10_empty_document_fails (w : World) (p : String) (ms : List Msg)
    (h : extract_xml_from_save (w.zipOf p) (pathName p) = (some "", ms)) :
    analyze_save_file w p = (none, ms) := by
  unfold analyze_save_file
  rw [h]
  rfl

theorem c10_witness :
    extract_xml_from_save (wEmptyDoc.zipOf "/e.zip") (pathName "/e.zip") = (some "", []) ∧
    analyze_save_file wEmptyDoc "/e.zip" = (none, []) := by
  have hE : extract_xml_from_save (wEmptyDoc.zipOf "/e.zip") (pathName "/e.zip")
      = (some "", []) := by decide
  exact ⟨hE, c10_empty_document_fails wEmptyDoc "/e.zip" [] hE⟩

/-- Claim C5: the extractor returns the decoded text of the entry named
exactly `game.xml` when present, otherwise the decoded text of the first
entry (in listing order) whose name ends in `.xml`, and when no such entry
exists it emits a warning and produces no document. -/
theorem c5_extract_selection (z : ZipFile) (nm : String) :
    (z.namelist.contains "game.xml" = true →
      ∀ bs s, z.zread "game.xml" = some bs → utf8Decode bs = some s →
        extract_xml_from_save (some z) nm = (some s, [])) ∧
    (z.namelist.contains "game.xml" = false →
      ∀ f fs bs s, z.namelist.filter (fun n => strEndsWith n ".xml") = f :: fs →
        z.zread f = some bs → utf8Decode bs = some s →
          extract_xml_from_save (some z) nm = (some s, [])) ∧
    (z.namelist.filter (fun n => strEndsWith n ".xml") = [] →
      extract_xml_from_save (some z) nm = (none, [Msg.noXmlWarning nm])) := by
  refine ⟨fun hc bs s hr hd => ?_, fun hc f fs bs s hf hr hd => ?_, fun hf => ?_⟩
  · have hm : "game.xml" ∈ z.namelist := by simpa using hc
    unfold extract_xml_from_save
    simp [hm, hr, hd]
  · have hm : "game.xml" ∉ z.namelist := by simpa using hc
    unfold extract_xml_from_save
    simp [hm, hf, hr, hd]
  · have hm : "game.xml" ∉ z.namelist := by
      intro hmem
      have hin : "game.xml" ∈ z.namelist.filter (fun n => strEndsWith n ".xml") :=
        List.mem_filter.2 ⟨hmem, by decide⟩
      rw [hf] at hin
      simp at hin
    unfold extract_xml_from_save
    simp [hm, hf]

theorem c5_witness :
    extract_xml_from_save (some zipA) "a.zip" = (some "docA", []) ∧
    extract_xml_from_save (some zipB) "b.zip" = (some "docB", []) ∧
    extract_xml_from_save (some zipNoXml) "c.zip" = (none, [Msg.noXmlWarning "c.zip"]) := by
  refine ⟨?_, ?_, ?_⟩
  · exact (c5_extract_selection zipA "a.zip").1 (by decide)
      (asciiBytes "docA") "docA" (by decide) (by decide)
  · exact (c5_extract_selection zipB "b.zip").2.1 (by decide)
      "save.xml" [] (asciiBytes "docB") "docB" (by decide) (by decide) (by decide)
  · exact (c5_extract_selection zipNoXml "c.zip").2.2 (by decide)

/-- Claim C3 counterexample: a well-formed document whose root element is
itself named `Player` (and carries a legacy nation) analyzes successfully
with an empty player list — the root `Player` element contributes no
record, because `findall('.//Player')` matches descendants only. -/
theorem c3_root_player_counterexample :
    docP.tag = "Player" ∧ docP.get "Nation" = some "NATION_SELEUCUS" ∧
    ((analyze_save_file wRootPlayer "/x/p.zip").1).map SaveFileAnalysis.players
      = some [] := by decide

/-- Claim C3 (amended): every element named `Player` that is a proper
descendant of the root — not the root itself — contributes exactly one
record, in document order, and a missing `ID`, `Name`, `Nation` or
`Dynasty` attribute yields an unset field, never an error. -/
theorem c3_descendant_players (w : World) (p s : String) (root : XmlElem)
    (hE : (extract_xml_from_save (w.zipOf p) (pathName p)).1 = some s)
    (hs : s.isEmpty = false)
    (hr : w.parseXml s = some root) :
    (analyze_save_file w p).1 = some (mkAnalysis w p root) ∧
    (mkAnalysis w p root).players
      = ((descendants root).filter (fun e => e.tag == "Player")).map playerRecordOf ∧
    (∀ e : XmlElem, ((e.attrs.map Prod.fst).contains "ID") = false →
      (playerRecordOf e).id = none) ∧
    (∀ e : XmlElem, ((e.attrs.map Prod.fst).contains "Name") = false →
      (playerRecordOf e).name = none) ∧
    (∀ e : XmlElem, ((e.attrs.map Prod.fst).contains "Nation") = false →
      (playerRecordOf e).nation = none) ∧
    (∀ e : XmlElem, ((e.attrs.map Prod.fst).contains "Dynasty") = false →
      (playerRecordOf e).dynasty = none) := by
  have hget : ∀ (e : XmlElem) (k : String),
      ((e.attrs.map Prod.fst).contains k) = false → e.get k = none := by
    intro e k hk
    have hk2 : k ∉ e.attrs.map Prod.fst := by simpa using hk
    unfold XmlElem.get
    rw [List.find?_eq_none.2, Option.map_none']
    intro kv hkv hbeq
    exact hk2 (List.mem_map.2 ⟨kv, hkv, by simpa using hbeq⟩)
  refine ⟨?_, mkAnalysis_players w p root, fun e => hget e "ID", fun e => hget e "Name",
    fun e => hget e "Nation", fun e => hget e "Dynasty"⟩
  unfold analyze_save_file
  rcases hP : extract_xml_from_save (w.zipOf p) (pathName p) with ⟨xc, ms⟩
  rw [hP] at hE
  dsimp only at hE
  subst hE
  simp [hs, hr]

theorem c3_witness :
    (analyze_save_file wEx "/saves/b.zip").1 = some (mkAnalysis wEx "/saves/b.zip" doc2) ∧
    (mkAnalysis wEx "/saves/b.zip" doc2).players
      = ((descendants doc2).filter (fun e => e.tag == "Player")).map playerRecordOf := by
  have h := c3_descendant_players wEx "/saves/b.zip" "docB" doc2
    (by decide) (by decide) (by rfl)
  exact ⟨h.1, h.2.1⟩

/-- Closed form of the discovery fold: collected files and messages per
search path. -/
theorem find_save_files_foldl (w : World) (paths : List String)
    (acc : List String × List Msg) :
    paths.foldl (findStep w) acc
      = (acc.1 ++ paths.flatMap (fun sp =>
            if !w.pexists sp then []
            else if w.is_file sp && pathSuffix sp == ".zip" then [sp]
            else if w.is_dir sp then w.rglobZip sp else []),
         acc.2 ++ paths.filterMap (fun sp =>
            if !w.pexists sp then some (Msg.pathDoesNotExist sp) else none)) := by
  induction paths generalizing acc with
  | nil => simp
  | cons sp ps ih =>
    rw [List.foldl_cons, ih, List.flatMap_cons, List.filterMap_cons]
    cases h1 : w.pexists sp <;> cases h2 : w.is_file sp <;>
      cases h3 : pathSuffix sp == ".zip" <;> cases h4 : w.is_dir sp <;>
        simp [findStep, h1, h2, h3, h4, List.append_assoc]

/-- The discovery result in closed form. -/
theorem find_save_files_eq (w : World) (paths : List String) :
    find_save_files w paths
      = (List.insertionSort (fun a b => w.mtime a ≤ w.mtime b)
          (paths.flatMap (fun sp =>
            if !w.pexists sp then []
            else if w.is_file sp && pathSuffix sp == ".zip" then [sp]
            else if w.is_dir sp then w.rglobZip sp else [])),
         paths.filterMap (fun sp =>
            if !w.pexists sp then some (Msg.pathDoesNotExist sp) else none)) := by
  unfold find_save_files
  rw [find_save_files_foldl]
  simp

/-- Claim C4 counterexample: the single explicit argument `/nope.zip` does
not exist; discovery drops it with a `Path does not exist` message and the
run ends with `No save files found!` and exit code 1 — it never surfaces
as an open failure, although `wMissing.zipOf` would open it successfully. -/
theorem c4_existence_filter_counterexample :
    find_save_files wMissing ["/nope.zip"] = ([], [Msg.pathDoesNotExist "/nope.zip"]) ∧
    wMissing.zipOf "/nope.zip" = some zipP ∧
    Script.main wMissing
      = (1, [Msg.searchingIn ["/nope.zip"], Msg.pathDoesNotExist "/nope.zip",
          Msg.noSaveFiles]) ∧
    (Script.main wMissing).2.any msgIsOpenFailure = false := by decide

/-- Claim C4 (amended): explicit command-line paths are taken as-is at
argument resolution (no existence filtering in `main`), but discovery
(`find_save_files`) does filter: a search path that does not exist is
dropped with a `Path does not exist` message and never reaches an open
attempt (assuming, as on a real filesystem, that `rglob` only returns
existing files). -/
theorem c4_explicit_paths_amended :
    (∀ w : World, w.argv.isEmpty = false → resolvedSearchPaths w = w.argv) ∧
    (∀ (w : World) (paths : List String) (p : String),
      (∀ d q, q ∈ w.rglobZip d → w.pexists q = true) →
      p ∈ paths → w.pexists p = false →
        p ∉ (find_save_files w paths).1 ∧
        Msg.pathDoesNotExist p ∈ (find_save_files w paths).2) := by
  constructor
  · intro w h
    unfold resolvedSearchPaths
    simp [h]
  · intro w paths p hwf hp hpe
    rw [find_save_files_eq]
    constructor
    · intro hmem
      dsimp only at hmem
      have hmem2 := ((List.perm_insertionSort
        (fun a b => w.mtime a ≤ w.mtime b) _).mem_iff).1 hmem
      obtain ⟨sp, hsp, hin⟩ := List.mem_flatMap.1 hmem2
      cases h1 : w.pexists sp with
      | false => simp [h1] at hin
      | true =>
        by_cases h2 : (w.is_file sp && pathSuffix sp == ".zip") = true
        · simp only [h1, Bool.not_true, Bool.false_eq_true, if_false, h2,
            if_true] at hin
          rw [List.mem_singleton] at hin
          subst hin
          rw [h1] at hpe
          exact Bool.noConfusion hpe
        · rw [Bool.not_eq_true] at h2
          by_cases h3 : w.is_dir sp = true
          · simp only [h1, Bool.not_true, Bool.false_eq_true, if_false, h2,
              h3, if_true] at hin
            have := hwf sp p hin
            rw [this] at hpe
            exact Bool.noConfusion hpe
          · rw [Bool.not_eq_true] at h3
            simp [h1, h2, h3] at hin
    · dsimp only
      exact List.mem_filterMap.2 ⟨p, hp, by simp [hpe]⟩

theorem c4_witness :
    resolvedSearchPaths wMissing = ["/nope.zip"] ∧
    "/nope.zip" ∉ (find_save_files wMissing ["/nope.zip"]).1 ∧
    Msg.pathDoesNotExist "/nope.zip" ∈ (find_save_files wMissing ["/nope.zip"]).2 := by
  have h1 := c4_explicit_paths_amended.1 wMissing (by decide)
  have h2 := c4_explicit_paths_amended.2 wMissing ["/nope.zip"] "/nope.zip"
    (fun d q hq => absurd hq (List.not_mem_nil q)) (by simp) (by decide)
  exact ⟨h1, h2.1, h2.2⟩

/-! ### Lemmas about the summary output -/

theorem playerMsgs_no_form_branch (pd : PlayerRecord) :
    (playerMsgs pd).all (fun m => !msgIsFormBranch m) = true := by
  unfold playerMsgs
  cases hL : nationIsDiadochi pd.nation <;> rfl

theorem flatMap_playerMsgs_no_form_branch (l : List PlayerRecord) :
    (l.flatMap playerMsgs).all (fun m => !msgIsFormBranch m) = true := by
  induction l with
  | nil => rfl
  | cons pd ps ih =>
    simp [List.flatMap_cons, List.all_append, playerMsgs_no_form_branch pd, ih]

theorem archiveMsgs_no_form_branch (a : SaveFileAnalysis) :
    (archiveMsgs a).all (fun m => !msgIsFormBranch m) = true := by
  unfold archiveMsgs
  cases hv : a.game_version <;> cases hd2 : a.save_date <;>
    simp [List.all_append, List.all_cons, msgIsFormBranch,
      flatMap_playerMsgs_no_form_branch]
  all_goals
    intro x hx
    refine Or.inr fun m hm => ?_
    have hall := playerMsgs_no_form_branch x
    rw [List.all_eq_true] at hall
    simpa [msgIsFormBranch] using hall m hm

theorem breakdown_no_form_branch (l : List SaveFileAnalysis) :
    ∀ m ∈ l.flatMap archiveMsgs, msgIsFormBranch m = false := by
  intro m hm
  obtain ⟨a, _, hx⟩ := List.mem_flatMap.1 hm
  have hall := archiveMsgs_no_form_branch a
  rw [List.all_eq_true] at hall
  simpa using hall m hx

theorem form_branch_not_in_breakdown_if (m : Msg) (hm : msgIsFormBranch m = true)
    (b : Prop) [Decidable b] (l : List SaveFileAnalysis) :
    m ∉ (if b then Msg.breakdownHeader :: l.flatMap archiveMsgs else []) := by
  split_ifs with hb
  · intro hmem
    rw [List.mem_cons] at hmem
    rcases hmem with rfl | hmem
    · exact Bool.noConfusion hm
    · have hx := breakdown_no_form_branch l m hmem
      rw [hx] at hm
      exact Bool.noConfusion hm
  · simp

theorem both_warning_mem_iff (analyses : List SaveFileAnalysis) :
    Msg.bothFormatsWarning ∈ print_analysis_summary analyses ↔
      ((analyses.filter (fun a => a.diadochi_as_nations)).isEmpty = false ∧
       (analyses.filter (fun a => a.diadochi_as_dynasties)).isEmpty = false) := by
  have hC := form_branch_not_in_breakdown_if Msg.bothFormatsWarning rfl
  cases hN : (analyses.filter (fun a => a.diadochi_as_nations)).isEmpty <;>
    cases hD : (analyses.filter (fun a => a.diadochi_as_dynasties)).isEmpty <;>
      simp [print_analysis_summary, hN, hD, hC]

theorem legacy_confirm_mem_iff (analyses : List SaveFileAnalysis) :
    Msg.allLegacyConfirm ∈ print_analysis_summary analyses ↔
      ((analyses.filter (fun a => a.diadochi_as_nations)).isEmpty = false ∧
       (analyses.filter (fun a => a.diadochi_as_dynasties)).isEmpty = true) := by
  have hC := form_branch_not_in_breakdown_if Msg.allLegacyConfirm rfl
  cases hN : (analyses.filter (fun a => a.diadochi_as_nations)).isEmpty <;>
    cases hD : (analyses.filter (fun a => a.diadochi_as_dynasties)).isEmpty <;>
      simp [print_analysis_summary, hN, hD, hC]

theorem modern_confirm_mem_iff (analyses : List SaveFileAnalysis) :
    Msg.allModernConfirm ∈ print_analysis_summary analyses ↔
      ((analyses.filter (fun a => a.diadochi_as_nations)).isEmpty = true ∧
       (analyses.filter (fun a => a.diadochi_as_dynasties)).isEmpty = false) := by
  have hC := form_branch_not_in_breakdown_if Msg.allModernConfirm rfl
  cases hN : (analyses.filter (fun a => a.diadochi_as_nations)).isEmpty <;>
    cases hD : (analyses.filter (fun a => a.diadochi_as_dynasties)).isEmpty <;>
      simp [print_analysis_summary, hN, hD, hC]

theorem filter_isEmpty_false_iff {α : Type} (l : List α) (f : α → Bool) :
    (l.filter f).isEmpty = false ↔ ∃ a ∈ l, f a = true := by
  induction l with
  | nil => simp
  | cons x xs ih =>
    by_cases hx : f x = true <;> simp [List.filter_cons, hx, ih]

theorem filter_isEmpty_true_iff {α : Type} (l : List α) (f : α → Bool) :
    (l.filter f).isEmpty = true ↔ ¬∃ a ∈ l, f a = true := by
  rw [← filter_isEmpty_false_iff l f]
  cases hb : (l.filter f).isEmpty <;> simp

/-- Claim C2: over any batch of analyses, the "both formats observed"
warning is emitted iff some archive has `diadochi_as_nations` and some
archive has `diadochi_as_dynasties`; a single-form confirmation is emitted
iff exactly that form appears; and with neither form no such line appears. -/
theorem c2_both_formats_warning (analyses : List SaveFileAnalysis) :
    (Msg.bothFormatsWarning ∈ print_analysis_summary analyses ↔
      (∃ a ∈ analyses, a.diadochi_as_nations = true) ∧
      (∃ a ∈ analyses, a.diadochi_as_dynasties = true)) ∧
    (Msg.allLegacyConfirm ∈ print_analysis_summary analyses ↔
      (∃ a ∈ analyses, a.diadochi_as_nations = true) ∧
      ¬(∃ a ∈ analyses, a.diadochi_as_dynasties = true)) ∧
    (Msg.allModernConfirm ∈ print_analysis_summary analyses ↔
      ¬(∃ a ∈ analyses, a.diadochi_as_nations = true) ∧
      (∃ a ∈ analyses, a.diadochi_as_dynasties = true)) := by
  refine ⟨?_, ?_, ?_⟩
  · rw [both_warning_mem_iff]
    rw [filter_isEmpty_false_iff, filter_isEmpty_false_iff]
  · rw [legacy_confirm_mem_iff]
    rw [filter_isEmpty_false_iff, filter_isEmpty_true_iff]
  · rw [modern_confirm_mem_iff]
    rw [filter_isEmpty_true_iff, filter_isEmpty_false_iff]

/-- Claim C6: exit code 1 exactly when no search directory resolves or no
archive is discovered, else 0 — including the 3-archive batch `wEx` (2
analyzable of which 1 carries a legacy match, 1 unreadable): 2 successes,
1 reported failure, exit 0. -/
theorem c6_exit_codes :
    (∀ w : World, (Script.main w).1 =
      if (resolvedSearchPaths w).isEmpty
          || (find_save_files w (resolvedSearchPaths w)).1.isEmpty then 1 else 0) ∧
    (Script.main wEx).1 = 0 ∧
    (Script.main wEx).2.countP msgIsAnalyzeOk = 2 ∧
    (Script.main wEx).2.countP msgIsAnalyzeFailed = 1 ∧
    (processSaveFiles wEx (find_save_files wEx (resolvedSearchPaths wEx)).1).1.countP
        (fun a => a.diadochi_as_nations) = 1 := by
  refine ⟨fun w => ?_, by decide, by decide, by decide, by decide⟩
  rcases hF : find_save_files w (resolvedSearchPaths w) with ⟨sf, fm⟩
  rcases hP : processSaveFiles w sf with ⟨ans, pm⟩
  cases h1 : (resolvedSearchPaths w).isEmpty <;> cases h2 : sf.isEmpty <;>
    simp [Script.main, hF, hP, h1, h2]

/-! ### Lemmas about progress-line ordering -/

theorem extract_msgs_small (zo : Option ZipFile) (nm : String) :
    (extract_xml_from_save zo nm).2 = [] ∨
    (extract_xml_from_save zo nm).2 = [Msg.errorReading nm] ∨
    (extract_xml_from_save zo nm).2 = [Msg.noXmlWarning nm] := by
  unfold extract_xml_from_save
  cases zo with
  | none => simp
  | some z =>
    repeat' split
    all_goals first
      | (left; rfl)
      | (right; left; rfl)
      | (right; right; rfl)

theorem analyze_msgs_no_analyzing (w : World) (p : String) :
    (analyze_save_file w p).2.filterMap msgAnalyzingName = [] := by
  have hs := extract_msgs_small (w.zipOf p) (pathName p)
  unfold analyze_save_file
  rcases hE : extract_xml_from_save (w.zipOf p) (pathName p) with ⟨xc, ms⟩
  rw [hE] at hs
  dsimp only at hs
  have hms : ms.filterMap msgAnalyzingName = [] := by
    rcases hs with rfl | rfl | rfl <;> rfl
  cases xc with
  | none => simpa using hms
  | some s =>
    by_cases hsE : s.isEmpty
    · simpa [hsE] using hms
    · cases hr : w.parseXml s with
      | none =>
        simp [hsE, hr, List.filterMap_append, hms, msgAnalyzingName]
      | some root => simpa [hsE, hr] using hms

theorem perFileMsgs_analyzing (w : World) (f : String) :
    (perFileMsgs w f).filterMap msgAnalyzingName = [pathName f] := by
  have hms := analyze_msgs_no_analyzing w f
  unfold perFileMsgs
  rcases hA : analyze_save_file w f with ⟨res, ms⟩
  rw [hA] at hms
  dsimp only at hms
  cases res <;>
    simp [msgAnalyzingName, List.filterMap_cons, List.filterMap_append, hms]

theorem processSaveFiles_foldl (w : World) (files : List String)
    (acc : List SaveFileAnalysis × List Msg) :
    files.foldl (processStep w) acc
      = (acc.1 ++ files.filterMap (fun f => (analyze_save_file w f).1),
         acc.2 ++ files.flatMap (perFileMsgs w)) := by
  induction files generalizing acc with
  | nil => simp
  | cons f fs ih =>
    rw [List.foldl_cons, ih, List.filterMap_cons, List.flatMap_cons]
    unfold processStep perFileMsgs
    rcases hA : analyze_save_file w f with ⟨res, ms⟩
    cases res <;> simp [List.append_assoc]

theorem processSaveFiles_eq (w : World) (files : List String) :
    processSaveFiles w files
      = (files.filterMap (fun f => (analyze_save_file w f).1),
         files.flatMap (perFileMsgs w)) := by
  unfold processSaveFiles
  rw [processSaveFiles_foldl]
  simp

theorem flatMap_perFileMsgs_analyzing (w : World) (files : List String) :
    (files.flatMap (perFileMsgs w)).filterMap msgAnalyzingName
      = files.map pathName := by
  induction files with
  | nil => rfl
  | cons f fs ih =>
    simp [List.flatMap_cons, List.filterMap_append, perFileMsgs_analyzing, ih]

theorem playerMsgs_no_analyzing (pd : PlayerRecord) :
    (playerMsgs pd).all (fun m => msgAnalyzingName m == none) = true := by
  unfold playerMsgs
  cases hL : nationIsDiadochi pd.nation <;> rfl

theorem archiveMsgs_no_analyzing_all (a : SaveFileAnalysis) :
    (archiveMsgs a).all (fun m => msgAnalyzingName m == none) = true := by
  unfold archiveMsgs
  cases hv : a.game_version <;> cases hd2 : a.save_date <;>
    simp [List.all_append, List.all_cons, msgAnalyzingName]
  all_goals
    intro x hx
    refine Or.inr fun m hm => ?_
    have hall := playerMsgs_no_analyzing x
    rw [List.all_eq_true] at hall
    simpa using hall m hm

theorem archiveMsgs_no_analyzing (a : SaveFileAnalysis) :
    ∀ m ∈ archiveMsgs a, msgAnalyzingName m = none := by
  intro m hm
  have hall := archiveMsgs_no_analyzing_all a
  rw [List.all_eq_true] at hall
  simpa using hall m hm

theorem summary_no_analyzing (analyses : List SaveFileAnalysis) :
    (print_analysis_summary analyses).filterMap msgAnalyzingName = [] := by
  rw [List.filterMap_eq_nil_iff]
  intro m hm
  simp only [print_analysis_summary, List.mem_append] at hm
  rcases hm with (hm | hm) | hm
  · simp only [List.mem_cons, List.not_mem_nil, or_false] at hm
    rcases hm with rfl | rfl | rfl | rfl | rfl <;> rfl
  · revert hm
    split_ifs <;> intro hm <;> simp only [List.mem_singleton,
      List.not_mem_nil] at hm <;> try (subst hm; rfl)
  · revert hm
    split_ifs with hb <;> intro hm
    · rcases List.mem_cons.1 hm with rfl | hm2
      · rfl
      · obtain ⟨a, _, hx⟩ := List.mem_flatMap.1 hm2
        exact archiveMsgs_no_analyzing a m hx
    · exact absurd hm (List.not_mem_nil m)

theorem find_msgs_no_analyzing (w : World) (paths : List String) :
    (find_save_files w paths).2.filterMap msgAnalyzingName = [] := by
  rw [find_save_files_eq]
  dsimp only
  rw [List.filterMap_eq_nil_iff]
  intro m hm
  obtain ⟨sp, _, hsp⟩ := List.mem_filterMap.1 hm
  revert hsp
  split_ifs <;> intro hsp
  · injection hsp with h
    subst h
    rfl
  · simp at hsp

/-- Claim C7: the discovered archive list is sorted ascending by
modification time, the per-archive progress report follows the file list it
is given, and in a full `main` run the progress lines follow the discovery
order exactly. -/
theorem c7_report_order (w : World) (paths files : List String) :
    ((find_save_files w paths).1).Pairwise (fun a b => w.mtime a ≤ w.mtime b) ∧
    (processSaveFiles w files).2.filterMap msgAnalyzingName = files.map pathName ∧
    (Script.main w).2.filterMap msgAnalyzingName
      = ((find_save_files w (resolvedSearchPaths w)).1).map pathName := by
  refine ⟨?_, ?_, ?_⟩
  · unfold find_save_files
    dsimp only
    haveI : IsTotal String (fun a b => w.mtime a ≤ w.mtime b) :=
      ⟨fun a b => Nat.le_total _ _⟩
    haveI : IsTrans String (fun a b => w.mtime a ≤ w.mtime b) :=
      ⟨fun a b c hab hbc => Nat.le_trans hab hbc⟩
    exact List.sorted_insertionSort _ _
  · rw [processSaveFiles_eq]
    exact flatMap_perFileMsgs_analyzing w files
  · rcases hF : find_save_files w (resolvedSearchPaths w) with ⟨sf, fm⟩
    rcases hP : processSaveFiles w sf with ⟨ans, pm⟩
    have hfm : fm.filterMap msgAnalyzingName = [] := by
      have hx := find_msgs_no_analyzing w (resolvedSearchPaths w)
      rw [hF] at hx
      exact hx
    have hpm : pm.filterMap msgAnalyzingName = sf.map pathName := by
      have hx := congrArg Prod.snd ((hP.symm).trans (processSaveFiles_eq w sf))
      dsimp only at hx
      rw [hx]
      exact flatMap_perFileMsgs_analyzing w sf
    by_cases h1 : (resolvedSearchPaths w).isEmpty = true
    · have hres : resolvedSearchPaths w = [] := List.isEmpty_iff.1 h1
      rw [hres] at hF
      have hsf : sf = [] := by
        have hx := congrArg Prod.fst hF.symm
        simpa [find_save_files] using hx
      subst hsf
      simp [Script.main, hres, msgAnalyzingName]
    · rw [Bool.not_eq_true] at h1
      cases h2 : sf.isEmpty with
      | true =>
        have hsf : sf = [] := List.isEmpty_iff.1 h2
        subst hsf
        simp [Script.main, hF, h1, List.filterMap_append, msgAnalyzingName, hfm]
      | false =>
        simp [Script.main, hF, hP, h1, h2, List.filterMap_append,
          List.filterMap_cons, msgAnalyzingName, hfm, hpm, summary_no_analyzing]

/-- Claim C8: the synthetic document of `wEx`'s `a.zip` has exactly one
`Player`, with `Nation="NATION_SELEUCUS"`; analysis yields exactly one
matching record, classified legacy (not modern), and the expected-modern
pair looked up from `EXPECTED_MAPPINGS` is
`(NATION_GREECE, DYNASTY_SELEUCID)`. -/
theorem c8_roundtrip_legacy :
    (analyze_save_file wEx "/saves/a.zip").1 = some analysisA ∧
    analysisA.players.filter isDiadochiPlayer = [pRecA] ∧
    nationIsDiadochi pRecA.nation = true ∧
    isGreeceDiadochiDynasty pRecA.nation pRecA.dynasty = false ∧
    pRecA.nation.bind EXPECTED_MAPPINGS
      = some ("NATION_GREECE", "DYNASTY_SELEUCID") ∧
    Msg.formatLegacy (some ("NATION_GREECE", "DYNASTY_SELEUCID"))
      ∈ print_analysis_summary [analysisA] ∧
    Msg.formatModern ∉ print_analysis_summary [analysisA] := by decide
